import Mathlib

/-!
Verification of the machine-provision reconciliation controller

A shallow embedding of the `machineprovision` controller (package
`machineprovision`): the job-status translator (`getMachineStatus`,
`getMachineStatusFromPod`), the status and condition patcher
(`patchStatus`, `setCondition`), the teardown orchestrator (`OnRemove`,
`doRemove`) and the file materializer (`constructFilesSecret`).

Dynamic (unstructured) data values are modelled by `DVal` (a string or a
boolean), status maps by association lists of `String × DVal`, and the
external collaborators (caches, the safe-removal check, the apply layer)
by an explicit environment record of lookup results.  Side effects
(delayed re-enqueues, the deletion-job step, the cleanup apply) are
recorded in an explicit effect trace.  Go errors are modelled by `GoErr`
with the `skip` constructor standing for the `generic.ErrSkip` sentinel.
-/

/-- A dynamic value stored in an unstructured object: a string or a bool
(the only shapes the embedded code reads or writes). -/
inductive DVal where
  | str (s : String)
  | bool (b : Bool)
deriving DecidableEq, Repr

/-- Model of `convert.ToString` on a dynamic value. -/
def DVal.toString : DVal → String
  | .str s => s
  | .bool b => if b then "true" else "false"

/-- Association-list lookup, first match wins (Go map read). -/
def lookupV {α : Type} : List (String × α) → String → Option α
  | [], _ => none
  | kv :: rest, k => if kv.1 == k then some kv.2 else lookupV rest k

/-- Association-list write (Go map assignment): replace the first binding
of the key, or append a fresh one. -/
def setKeyV {α : Type} : List (String × α) → String → α → List (String × α)
  | [], k, v => [(k, v)]
  | kv :: rest, k, v => if kv.1 == k then (k, v) :: rest else kv :: setKeyV rest k v

/-- Association-list delete (Go `delete(m, k)`). -/
def removeKeyV {α : Type} : List (String × α) → String → List (String × α)
  | [], _ => []
  | kv :: rest, k => if kv.1 == k then removeKeyV rest k else kv :: removeKeyV rest k

theorem lookupV_setKeyV_self {α : Type} (l : List (String × α)) (k : String) (v : α) :
    lookupV (setKeyV l k v) k = some v := by
  induction l with
  | nil => simp [setKeyV, lookupV]
  | cons kv rest ih =>
    by_cases h : kv.1 = k
    · simp [setKeyV, h, lookupV]
    · simp [setKeyV, h, lookupV, ih]

theorem lookupV_setKeyV_ne {α : Type} (l : List (String × α)) (k k' : String) (v : α)
    (h : k' ≠ k) : lookupV (setKeyV l k v) k' = lookupV l k' := by
  induction l with
  | nil => simp [setKeyV, lookupV, Ne.symm h]
  | cons kv rest ih =>
    by_cases hk : kv.1 = k
    · have hk' : kv.1 ≠ k' := fun hc => h (hc ▸ hk)
      simp [setKeyV, hk, lookupV, Ne.symm h, hk']
    · simp [setKeyV, hk, lookupV, ih]

theorem lookupV_removeKeyV_self {α : Type} (l : List (String × α)) (k : String) :
    lookupV (removeKeyV l k) k = none := by
  induction l with
  | nil => simp [removeKeyV, lookupV]
  | cons kv rest ih =>
    by_cases h : kv.1 = k
    · simp [removeKeyV, h, ih]
    · simp [removeKeyV, h, lookupV, ih]

theorem lookupV_removeKeyV_ne {α : Type} (l : List (String × α)) (k k' : String)
    (h : k' ≠ k) : lookupV (removeKeyV l k) k' = lookupV l k' := by
  induction l with
  | nil => simp [removeKeyV, lookupV]
  | cons kv rest ih =>
    by_cases hk : kv.1 = k
    · have hk' : kv.1 ≠ k' := fun hc => h (hc ▸ hk)
      simp [removeKeyV, hk, lookupV, hk', ih, Ne.symm h]
    · simp [removeKeyV, hk, lookupV, ih]

/-- Model of `d.String("status", k)` on a status map: string form of the stored
value, or the empty string when absent (wrangler `data.Object.String`). -/
def dString (st : List (String × DVal)) (k : String) : String :=
  match lookupV st k with
  | some v => v.toString
  | none => ""

/-- Model of `d.Bool("status", k)` on a status map (wrangler `data.Object.Bool`
via `convert.ToBool`; absent keys and non-`true` strings give `false`). -/
def dBool (st : List (String × DVal)) (k : String) : Bool :=
  match lookupV st k with
  | some (.bool b) => b
  | some (.str s) => s == "true"
  | none => false

/-- A named condition: `{type, status, reason, message}`; equality (used
by `summary.Condition.Equals`) compares all four fields. -/
structure Cond where
  type : String
  status : String
  reason : String
  message : String
deriving DecidableEq, Repr

/-- First condition with the given type (wrangler `condition.Cond` and
the summary condition lookup both take the first type match). -/
def condFind : List Cond → String → Option Cond
  | [], _ => none
  | c :: rest, t => if c.type == t then some c else condFind rest t

/-- Model of `condition.Cond(t).IsTrue`: the first condition of the type has
status `"True"`. -/
def condIsTrue (cs : List Cond) (t : String) : Bool :=
  match condFind cs t with
  | some c => c.status == "True"
  | none => false

/-- Model of `condition.Cond(t).IsFalse`: the first condition of the type has
status `"False"`. -/
def condIsFalse (cs : List Cond) (t : String) : Bool :=
  match condFind cs t with
  | some c => c.status == "False"
  | none => false

/-- Model of `condition.Cond(t).GetReason`: reason of the first condition of the
type, or `""`. -/
def condReason (cs : List Cond) (t : String) : String :=
  match condFind cs t with
  | some c => c.reason
  | none => ""

/-- Modelled from the spec: the status fields of the infra resource
(`rkev1.RKEMachineStatus`, a data-shape declaration that is not part of
the unit under study): `{jobComplete: bool, jobName: string,
failureReason: string, failureMessage: string}`.  JSON encoding omits
zero-valued fields (`omitempty`). -/
structure RKEMachineStatus where
  jobComplete : Bool := false
  jobName : String := ""
  failureReason : String := ""
  failureMessage : String := ""
deriving DecidableEq, Repr

/-- Mirror of the external cluster-api constant `errors.CreateMachineError`. -/
def CreateMachineError : String := "CreateError"

/-- Mirror of the external cluster-api constant `errors.DeleteMachineError`. -/
def DeleteMachineError : String := "DeleteError"

/-- A terminated container state: exit code and message. -/
structure Terminated where
  exitCode : Int
  message : String
deriving DecidableEq, Repr

/-- A container status; `terminated = none` models a nil
`State.Terminated` pointer. -/
structure ContainerStatus where
  terminated : Option Terminated
deriving DecidableEq, Repr

/-- A pod (execution attempt of the provisioning job). -/
structure MPod where
  phase : String
  creationTimestamp : Nat
  containerStatuses : List ContainerStatus
deriving DecidableEq, Repr

/-- A provisioning job: completion timestamp and status conditions. -/
structure MJob where
  completionTime : Option Nat
  conditions : List Cond
deriving DecidableEq, Repr

/-- Model of `strings.TrimSpace`: strip leading and trailing whitespace
(character-list implementation, so that it evaluates by kernel
reduction). -/
def goTrimSpace (s : String) : String :=
  ⟨((s.data.dropWhile Char.isWhitespace).reverse.dropWhile Char.isWhitespace).reverse⟩

/-- The loop guard of `getMachineStatusFromPod`: the container terminated
with a non-zero exit code. -/
def hasFailedContainer (cs : ContainerStatus) : Bool :=
  match cs.terminated with
  | some t => t.exitCode != 0
  | none => false

/-- Model of `getMachineStatusFromPod`: a succeeded pod means the job completed;
otherwise, if any container terminated with a non-zero exit code, report
a failure whose message is taken from the **first** container status in
the list.  `none` models the Go nil-pointer dereference (crash) that
happens when the first container status has no terminated state. -/
def getMachineStatusFromPod (pod : MPod) (create : Bool) : Option RKEMachineStatus :=
  if pod.phase == "Succeeded" then
    some { jobComplete := true }
  else if pod.containerStatuses.any hasFailedContainer then
    match pod.containerStatuses.head? with
    | some cs0 =>
      cs0.terminated.map (fun t0 =>
        { failureReason := if create then CreateMachineError else DeleteMachineError,
          failureMessage := goTrimSpace t0.message })
    | none => none
  else
    some {}

/-- The most recently created pod (strictly-later creation timestamps
replace the running candidate, first-listed wins ties). -/
def lastPod (pods : List MPod) : Option MPod :=
  match pods with
  | [] => none
  | p :: rest =>
    some (rest.foldl (fun acc q => if q.creationTimestamp > acc.creationTimestamp then q else acc) p)

/-- Model of `getMachineStatus`: a job with a completion timestamp is complete;
else if its `"Failed"` condition is true, diagnose from the most recently
created pod of the given selector-matched pod list; else the empty
summary.  `none` models a crash propagated from
`getMachineStatusFromPod`. -/
def getMachineStatus (job : MJob) (pods : List MPod) (create : Bool) :
    Option RKEMachineStatus :=
  if job.completionTime.isSome then
    some { jobComplete := true }
  else if condIsTrue job.conditions "Failed" then
    match lastPod pods with
    | some p => getMachineStatusFromPod p create
    | none => some {}
  else
    some {}

/-- C8: a job with a completion timestamp always yields
`{jobComplete: true}` with no failure fields, for every pod list and
create flag, regardless of the job's conditions. -/
theorem c8_completed_job (job : MJob) (pods : List MPod) (create : Bool)
    (h : job.completionTime.isSome) :
    getMachineStatus job pods create =
      some { jobComplete := true, jobName := "", failureReason := "", failureMessage := "" } := by
  simp [getMachineStatus, h]

theorem c8_completed_job_witness :
    (MJob.mk (some 3) [⟨"Failed", "True", "", ""⟩]).completionTime.isSome ∧
    getMachineStatus (MJob.mk (some 3) [⟨"Failed", "True", "", ""⟩])
        [⟨"Failed", 0, [⟨some ⟨7, "boom"⟩⟩]⟩] true =
      some { jobComplete := true, jobName := "", failureReason := "", failureMessage := "" } :=
  ⟨by decide, c8_completed_job (MJob.mk (some 3) [⟨"Failed", "True", "", ""⟩])
      [⟨"Failed", 0, [⟨some ⟨7, "boom"⟩⟩]⟩] true (by decide)⟩

/-- C10: a failed job without a completion timestamp whose selector
matches no pods yields the empty summary: `jobComplete` is false and no
failure reason or message is reported. -/
theorem c10_failed_job_no_pods (job : MJob) (create : Bool)
    (h1 : job.completionTime = none)
    (h2 : condIsTrue job.conditions "Failed" = true) :
    getMachineStatus job [] create =
      some { jobComplete := false, jobName := "", failureReason := "", failureMessage := "" } := by
  simp [getMachineStatus, h1, h2, lastPod]

theorem c10_failed_job_no_pods_witness :
    condIsTrue (MJob.mk none [⟨"Failed", "True", "", ""⟩]).conditions "Failed" = true ∧
    getMachineStatus (MJob.mk none [⟨"Failed", "True", "", ""⟩]) [] false =
      some { jobComplete := false, jobName := "", failureReason := "", failureMessage := "" } :=
  ⟨by decide, c10_failed_job_no_pods (MJob.mk none [⟨"Failed", "True", "", ""⟩]) false rfl (by decide)⟩

/-- Pod used to refute C4: the first container status has no terminated
state, the second terminated with exit code 7. -/
def c4pod : MPod := ⟨"Running", 0, [⟨none⟩, ⟨some ⟨7, "boom"⟩⟩]⟩

/-- Job used to refute C4: no completion timestamp, `"Failed"` is true. -/
def c4job : MJob := ⟨none, [⟨"Failed", "True", "", ""⟩]⟩

/-- C4 counterexample: a failed job whose most recent pod has a container
terminated with non-zero exit code, but whose **first** container status
has no terminated state.  The claim demands a summary with
`failureReason = CreateMachineError`; instead the source dereferences the
first container's nil terminated state (modelled as `none`), so no
summary is returned at all. -/
theorem c4_counterexample :
    c4job.completionTime = none ∧
    condIsTrue c4job.conditions "Failed" = true ∧
    lastPod [c4pod] = some c4pod ∧
    c4pod.phase ≠ "Succeeded" ∧
    c4pod.containerStatuses.any hasFailedContainer = true ∧
    getMachineStatus c4job [c4pod] true = none := by
  decide

/-- C4 (amended): for a job whose `"Failed"` condition is true and which
has no completion timestamp, when the most recently created pod has not
succeeded and some container terminated with a non-zero exit code, the
translator returns `CreateMachineError`/`DeleteMachineError` (by the
create flag) with the trimmed terminated-state message of the **first**
container status — provided the first container status has a terminated
state; when it does not, the source crashes on a nil dereference
(modelled as `none`) instead of returning a summary. -/
theorem c4_amended (job : MJob) (pods : List MPod) (create : Bool) (p : MPod)
    (h1 : job.completionTime = none)
    (h2 : condIsTrue job.conditions "Failed" = true)
    (h3 : lastPod pods = some p)
    (h4 : p.phase ≠ "Succeeded")
    (h5 : p.containerStatuses.any hasFailedContainer = true) :
    (∀ t0 : Terminated, p.containerStatuses.head?.bind (fun cs => cs.terminated) = some t0 →
      getMachineStatus job pods create =
        some { jobComplete := false, jobName := "",
               failureReason := if create then CreateMachineError else DeleteMachineError,
               failureMessage := goTrimSpace t0.message }) ∧
    (p.containerStatuses.head?.bind (fun cs => cs.terminated) = none →
      getMachineStatus job pods create = none) := by
  have hne : p.containerStatuses ≠ [] := by
    intro hnil
    rw [hnil] at h5
    simp [List.any] at h5
  obtain ⟨cs0, rest, hcs⟩ : ∃ cs0 rest, p.containerStatuses = cs0 :: rest := by
    cases hcase : p.containerStatuses with
    | nil => exact absurd hcase hne
    | cons a l => exact ⟨a, l, rfl⟩
  have hp : (p.phase == "Succeeded") = false := by simpa using h4
  have hstage : getMachineStatus job pods create = getMachineStatusFromPod p create := by
    simp [getMachineStatus, h1, h2, h3]
  have hkey : getMachineStatusFromPod p create =
      cs0.terminated.map (fun t0 =>
        ({ jobComplete := false, jobName := "",
           failureReason := if create then CreateMachineError else DeleteMachineError,
           failureMessage := goTrimSpace t0.message } : RKEMachineStatus)) := by
    simp only [getMachineStatusFromPod, hp, Bool.false_eq_true, if_false, h5, if_true]
    rw [hcs]
    simp
  constructor
  · intro t0 ht
    rw [hcs] at ht
    simp only [List.head?_cons, Option.some_bind] at ht
    rw [hstage, hkey, ht, Option.map_some']
  · intro ht
    rw [hcs] at ht
    simp only [List.head?_cons, Option.some_bind] at ht
    rw [hstage, hkey, ht, Option.map_none']

/-- Witness pod for C4 (amended): first container terminated with exit
code 7 and message `" boom \n"`. -/
def w4pod : MPod := ⟨"Failed", 2, [⟨some ⟨7, " boom \n"⟩⟩]⟩

theorem c4_amended_witness :
    (w4pod.containerStatuses.any hasFailedContainer = true) ∧
    getMachineStatus c4job [⟨"Failed", 1, []⟩, w4pod] true =
      some { jobComplete := false, jobName := "",
             failureReason := CreateMachineError, failureMessage := "boom" } := by
  refine ⟨by decide, ?_⟩
  have h := (c4_amended c4job [⟨"Failed", 1, []⟩, w4pod] true w4pod rfl (by decide)
      (by decide) (by decide) (by decide)).1 ⟨7, " boom \n"⟩ (by decide)
  have htrim : goTrimSpace " boom \n" = "boom" := by decide
  simpa [htrim] using h

/-- A Go error value: the `generic.ErrSkip` sentinel, an apimachinery
not-found error, or a plain formatted error message. -/
inductive GoErr where
  | skip
  | notFound
  | msg (s : String)
deriving DecidableEq, Repr

/-- The result of an external lookup or call: a value, or a Go error. -/
inductive Res (α : Type) where
  | ok (val : α)
  | err (e : GoErr)
deriving DecidableEq, Repr

/-- An owner reference (kind and name). -/
structure OwnerRef where
  kind : String
  name : String
deriving DecidableEq, Repr

/-- The dynamic infra-machine resource: identity, labels, owner
references, the scalar status map and the status conditions. -/
structure MObj where
  name : String
  ns : String
  gvk : String
  labels : List (String × String)
  ownerRefs : List OwnerRef
  status : List (String × DVal)
  conditions : List Cond
deriving DecidableEq, Repr

/-- The provisioning (rancher) cluster record consulted during teardown. -/
structure Cluster where
  deletionTimestamp : Option Nat
  kubernetesVersion : String
deriving DecidableEq, Repr

/-- The owning CAPI machine: bound node reference, the GVK of its
infrastructure reference, and its status conditions. -/
structure CapiMachine where
  nodeRef : Option String
  infraGvk : String
  conditions : List Cond
deriving DecidableEq, Repr

/-- Outcomes of the external collaborators consulted on the teardown
path (caches, kubeconfig manager, the etcd safe-removal check, the run
step and the cleanup apply), modelled as an explicit environment. -/
structure Env where
  nsGet : Res (Option Nat)
  clusterGet : Res Cluster
  machineGet : Res CapiMachine
  restConfig : Res Unit
  safelyRemoved : Res Bool
  runResult : Res Unit
  jobGet : Res MJob
  applyResult : Res Unit
deriving DecidableEq, Repr

/-- An observable side effect of the teardown path. -/
inductive Eff where
  | enqueueAfter (gvk ns name : String) (delayUnits : Nat)
  | deletionJobStep
  | applyEmptyObjects
deriving DecidableEq, Repr

/-- The outcome of a remove-handler invocation: the returned object (or
nil), the returned error, and the trace of side effects. -/
structure RemoveResult where
  obj : Option MObj
  err : Option GoErr
  effs : List Eff
deriving DecidableEq, Repr

/-- The label carrying the consensus-membership (etcd-role) marker. -/
def etcdRoleLabel : String := "rke.cattle.io/etcd-role"

/-- Modelled from the spec: the label key naming the owning cluster
(constant `CapiMachineLabel`, declared in a repository file outside the
unit under study). -/
def CapiMachineLabel : String := "cluster.x-k8s.io/cluster-name"

/-- Mirror of the external cluster-api constant
`capi.DrainingSucceededCondition`. -/
def DrainingSucceededCondition : String := "DrainingSucceeded"

/-- Mirror of the external cluster-api constant
`capi.DrainingFailedReason`. -/
def DrainingFailedReason : String := "DrainingFailed"

/-- Model of `getMachine`: the first owner reference of kind `"Machine"` selects
the CAPI machine; its cache lookup outcome comes from the environment.
No such owner yields `(nil, nil)`. -/
def hasMachineOwner (obj : MObj) : Bool :=
  obj.ownerRefs.any (fun o => o.kind == "Machine")

def getMachineM (obj : MObj) (env : Env) : Res (Option CapiMachine) :=
  if hasMachineOwner obj then
    match env.machineGet with
    | .ok m => .ok (some m)
    | .err e => .err e
  else .ok none

/-- The tail of `doRemove`: invoke the construction-and-apply path for
the delete action (`h.run(obj, false)`, the deletion-job step), fetch
the deletion job, and either clean up all owned children (job complete)
or report retry-without-finalizing. -/
def doRemoveRun (obj : MObj) (env : Env) : RemoveResult :=
  match env.runResult with
  | .err e => ⟨none, some e, [.deletionJobStep]⟩
  | .ok _ =>
    match env.jobGet with
    | .err e => ⟨none, some e, [.deletionJobStep]⟩
    | .ok job =>
      if job.completionTime.isSome then
        match env.applyResult with
        | .err e => ⟨none, some e, [.deletionJobStep, .applyEmptyObjects]⟩
        | .ok _ => ⟨some obj, none, [.deletionJobStep, .applyEmptyObjects]⟩
      else ⟨none, some .skip, [.deletionJobStep]⟩

/-- The drain gate of `doRemove`: if the machine's drain-succeeded
condition is explicitly false and not in the terminal drain-failed
state, schedule a 5-unit re-check and skip without finalizing. -/
def doRemoveAfterMachine (obj : MObj) (env : Env) (machine : Option CapiMachine) :
    RemoveResult :=
  match machine with
  | some m =>
    if condIsFalse m.conditions DrainingSucceededCondition &&
        (condReason m.conditions DrainingSucceededCondition != DrainingFailedReason) then
      ⟨some obj, some .skip, [.enqueueAfter m.infraGvk obj.ns obj.name 5]⟩
    else doRemoveRun obj env
  | none => doRemoveRun obj env

/-- Model of `doRemove`: refuse deletion while the create job has neither
completed nor recorded a failure reason; then gate on drain; then run
the deletion job and clean up. -/
def doRemove (obj : MObj) (env : Env) : RemoveResult :=
  let infraName := obj.name
  if (!dBool obj.status "jobComplete") && (dString obj.status "failureReason" == "") then
    ⟨some obj,
     some (.msg ("cannot delete machine " ++ infraName ++ " because create job has not finished")),
     []⟩
  else
    match getMachineM obj env with
    | .err e => if e == .notFound then doRemoveAfterMachine obj env none else ⟨none, some e, []⟩
    | .ok m => doRemoveAfterMachine obj env m

/-- Model of `OnRemove`: the namespace guard, then the consensus-membership
(etcd) gate — resolve the owning cluster and machine, invoke the
safe-removal check, and on "not yet safe" schedule one 5-unit re-check
and return the skip sentinel — then `doRemove`. -/
def OnRemove (key : String) (obj : MObj) (env : Env) : RemoveResult :=
  match env.nsGet with
  | .err e => ⟨some obj, some e, []⟩
  | .ok (some _) => ⟨some obj, none, []⟩
  | .ok none =>
    if lookupV obj.labels etcdRoleLabel == some "true" then
      let clusterName := (lookupV obj.labels CapiMachineLabel).getD ""
      if clusterName == "" then
        ⟨some obj,
         some (.msg ("error retrieving the clustername for etcd node, label key " ++
           CapiMachineLabel ++ " does not appear to exist for dynamic machine " ++ key)),
         []⟩
      else
        match env.clusterGet with
        | .err e => if e == .notFound then doRemove obj env else ⟨some obj, some e, []⟩
        | .ok cluster =>
          if cluster.deletionTimestamp.isSome then doRemove obj env
          else
            match getMachineM obj env with
            | .err e => ⟨some obj, some e, []⟩
            | .ok none => doRemove obj env
            | .ok (some m) =>
              if m.nodeRef.isNone then doRemove obj env
              else
                match env.restConfig with
                | .err e => ⟨some obj, some e, []⟩
                | .ok _ =>
                  match env.safelyRemoved with
                  | .err e => ⟨some obj, some e, []⟩
                  | .ok removed =>
                    if removed then doRemove obj env
                    else ⟨some obj, some .skip, [.enqueueAfter obj.gvk obj.ns obj.name 5]⟩
    else doRemove obj env

/-- C1: a consensus-member (etcd-role) resource whose cluster exists and
is not being deleted, whose CAPI machine has a bound node reference, and
for which the safe-removal check reports "not yet safe" without error:
`OnRemove` returns the object unchanged with the `ErrSkip` sentinel
after scheduling exactly one 5-unit delayed re-check, and never reaches
the deletion-job step. -/
theorem c1_etcd_gate (key : String) (obj : MObj) (env : Env) (cn : String)
    (cl : Cluster) (m : CapiMachine) (node : String)
    (hns : env.nsGet = .ok none)
    (hetcd : lookupV obj.labels etcdRoleLabel = some "true")
    (hcn : lookupV obj.labels CapiMachineLabel = some cn)
    (hcne : cn ≠ "")
    (hcl : env.clusterGet = .ok cl)
    (hcld : cl.deletionTimestamp = none)
    (hmo : hasMachineOwner obj = true)
    (hmg : env.machineGet = .ok m)
    (hnr : m.nodeRef = some node)
    (hrc : env.restConfig = .ok ())
    (hsafe : env.safelyRemoved = .ok false) :
    OnRemove key obj env = ⟨some obj, some .skip, [.enqueueAfter obj.gvk obj.ns obj.name 5]⟩ ∧
    Eff.deletionJobStep ∉ (OnRemove key obj env).effs := by
  have he : OnRemove key obj env =
      ⟨some obj, some .skip, [.enqueueAfter obj.gvk obj.ns obj.name 5]⟩ := by
    simp [OnRemove, getMachineM, hns, hetcd, hcn, hcne, hcl, hcld, hmo, hmg, hnr, hrc, hsafe]
  refine ⟨he, ?_⟩
  rw [he]
  simp

/-- Witness resource for C1. -/
def w1obj : MObj :=
  ⟨"m1", "ns1", "gvk1", [(etcdRoleLabel, "true"), (CapiMachineLabel, "c1")],
   [⟨"Machine", "m1"⟩], [("jobComplete", .bool true)], []⟩

/-- Witness environment for C1: cluster alive, machine bound to a node,
safe-removal check returns "not yet safe". -/
def w1env : Env :=
  ⟨.ok none, .ok ⟨none, "v1.21.5"⟩, .ok ⟨some "node1", "gvkM", []⟩, .ok (),
   .ok false, .ok (), .ok ⟨none, []⟩, .ok ()⟩

theorem c1_etcd_gate_witness :
    lookupV w1obj.labels etcdRoleLabel = some "true" ∧
    (OnRemove "k" w1obj w1env =
        ⟨some w1obj, some .skip, [.enqueueAfter w1obj.gvk w1obj.ns w1obj.name 5]⟩ ∧
      Eff.deletionJobStep ∉ (OnRemove "k" w1obj w1env).effs) :=
  ⟨by decide,
   c1_etcd_gate "k" w1obj w1env "c1" ⟨none, "v1.21.5"⟩ ⟨some "node1", "gvkM", []⟩ "node1"
     rfl (by decide) (by decide) (by decide) rfl rfl (by decide) rfl rfl rfl rfl⟩

/-- C2: teardown of a resource whose stored status has
`jobComplete = false` and `failureReason = ""` fails fatally: `doRemove`
returns the object unchanged with a non-sentinel error naming the
resource and stating the create job has not finished, performs no side
effects, and does not delete the resource. -/
theorem c2_create_job_unfinished (obj : MObj) (env : Env)
    (h1 : dBool obj.status "jobComplete" = false)
    (h2 : dString obj.status "failureReason" = "") :
    doRemove obj env =
      ⟨some obj,
       some (.msg ("cannot delete machine " ++ obj.name ++
         " because create job has not finished")),
       []⟩ ∧
    (doRemove obj env).err ≠ some GoErr.skip := by
  have he : doRemove obj env =
      ⟨some obj,
       some (.msg ("cannot delete machine " ++ obj.name ++
         " because create job has not finished")),
       []⟩ := by
    simp [doRemove, h1, h2]
  refine ⟨he, ?_⟩
  rw [he]
  simp

/-- Witness resource for C2: empty status (`jobComplete` absent is
false, `failureReason` absent is `""`). -/
def w2obj : MObj := ⟨"m2", "ns2", "gvk2", [], [], [], []⟩

/-- Witness environment for C2 (never consulted before the hard stop). -/
def w2env : Env :=
  ⟨.ok none, .err .notFound, .err .notFound, .ok (), .ok true, .ok (), .ok ⟨none, []⟩, .ok ()⟩

theorem c2_create_job_unfinished_witness :
    dBool w2obj.status "jobComplete" = false ∧
    (doRemove w2obj w2env =
        ⟨some w2obj,
         some (.msg ("cannot delete machine " ++ w2obj.name ++
           " because create job has not finished")),
         []⟩ ∧
      (doRemove w2obj w2env).err ≠ some GoErr.skip) :=
  ⟨by decide, c2_create_job_unfinished w2obj w2env rfl rfl⟩

/-- Resource and environment used for C3: the namespace carries a
deletion timestamp. -/
def c3obj : MObj := ⟨"m3", "ns3", "gvk3", [], [], [("jobComplete", .bool true)], []⟩

def c3env : Env :=
  ⟨.ok (some 1), .err .notFound, .err .notFound, .ok (), .ok true, .ok (), .ok ⟨some 2, []⟩, .ok ()⟩

/-- C3 counterexample: when the resource's namespace is being deleted,
`OnRemove` does **not** proceed to the deletion-job step (the claim says
the deletion job is still constructed and run): it returns immediately
with the object unchanged, a nil error and no effects at all, even
though a deletion job would have run had the guard fallen through
(`doRemove` on the same input does reach the deletion-job step). -/
theorem c3_counterexample :
    c3env.nsGet = Res.ok (some 1) ∧
    Eff.deletionJobStep ∉ (OnRemove "k" c3obj c3env).effs ∧
    OnRemove "k" c3obj c3env = ⟨some c3obj, none, []⟩ ∧
    Eff.deletionJobStep ∈ (doRemove c3obj c3env).effs := by
  decide

/-- C3 (amended): when the resource's namespace carries a deletion
timestamp, `OnRemove` returns immediately with the object unchanged and
no error — the ordering gates are skipped, but so is the whole teardown:
no deletion job is constructed or run and no effect is produced
(finalizer removal proceeds as for a successful reconcile). -/
theorem c3_amended (key : String) (obj : MObj) (env : Env) (ts : Nat)
    (h : env.nsGet = .ok (some ts)) :
    OnRemove key obj env = ⟨some obj, none, []⟩ := by
  simp [OnRemove, h]

theorem c3_amended_witness :
    c3env.nsGet = Res.ok (some 1) ∧
    OnRemove "k2" c3obj c3env = ⟨some c3obj, none, []⟩ :=
  ⟨rfl, c3_amended "k2" c3obj c3env 1 rfl⟩

/-- Model of `convert.EncodeToMap` on the status struct: JSON encoding with
`omitempty`, so zero-valued fields are absent. -/
def encodeToMap (s : RKEMachineStatus) : List (String × DVal) :=
  (if s.jobComplete then [("jobComplete", DVal.bool true)] else []) ++
  (if s.jobName = "" then [] else [("jobName", DVal.str s.jobName)]) ++
  (if s.failureReason = "" then [] else [("failureReason", DVal.str s.failureReason)]) ++
  (if s.failureMessage = "" then [] else [("failureMessage", DVal.str s.failureMessage)])

/-- The desired status map of `patchStatus`: the encoded status, with
missing failure fields defaulted to the empty string when the job is
complete. -/
def statusDataOf (s : RKEMachineStatus) : List (String × DVal) :=
  let sd := encodeToMap s
  if s.jobComplete then
    let sd1 := if (lookupV sd "failureMessage").isSome then sd
      else sd ++ [("failureMessage", DVal.str "")]
    if (lookupV sd1 "failureReason").isSome then sd1
    else sd1 ++ [("failureReason", DVal.str "")]
  else sd

/-- Merge the desired status keys into a stored status map
(`for k, v := range statusData { status[k] = v }`). -/
def applyData : List (String × DVal) → List (String × DVal) → List (String × DVal)
  | st, [] => st
  | st, kv :: rest => applyData (setKeyV st kv.1 kv.2) rest

theorem lookupV_applyData_notmem (sd : List (String × DVal)) :
    ∀ (st : List (String × DVal)) (k : String), (∀ kv ∈ sd, kv.1 ≠ k) →
    lookupV (applyData st sd) k = lookupV st k := by
  induction sd with
  | nil => intro st k _; rfl
  | cons kv rest ih =>
    intro st k h
    have h1 : kv.1 ≠ k := h kv (List.mem_cons_self _ _)
    rw [applyData, ih _ k (fun x hx => h x (List.mem_cons_of_mem _ hx))]
    exact lookupV_setKeyV_ne _ _ _ _ (Ne.symm h1)

theorem lookupV_applyData_mem (sd : List (String × DVal)) :
    ∀ (st : List (String × DVal)) (k : String) (v : DVal),
    (sd.map Prod.fst).Nodup → (k, v) ∈ sd →
    lookupV (applyData st sd) k = some v := by
  induction sd with
  | nil => intro st k v _ hm; cases hm
  | cons kv rest ih =>
    intro st k v hnd hm
    rw [List.map_cons, List.nodup_cons] at hnd
    rw [applyData]
    rcases List.mem_cons.mp hm with heq | hmem
    · have hkv1 : kv.1 = k := by rw [← heq]
      have hk : ∀ x ∈ rest, x.1 ≠ k := by
        intro x hx hxk
        apply hnd.1
        rw [hkv1, ← hxk]
        exact List.mem_map_of_mem Prod.fst hx
      rw [lookupV_applyData_notmem rest _ k hk, ← heq]
      exact lookupV_setKeyV_self _ _ _
    · exact ih _ k v hnd.2 hmem

/-- Keys of the desired status map are pairwise distinct. -/
theorem statusDataOf_keys_nodup (s : RKEMachineStatus) :
    ((statusDataOf s).map Prod.fst).Nodup := by
  by_cases h1 : s.jobComplete <;> by_cases h2 : s.jobName = "" <;>
    by_cases h3 : s.failureReason = "" <;> by_cases h4 : s.failureMessage = "" <;>
    simp [statusDataOf, encodeToMap, h1, h2, h3, h4, lookupV]

/-- When the job is complete and no failure reason is specified, the
desired status map carries an explicit empty `failureReason`. -/
theorem failureReason_mem_statusDataOf (s : RKEMachineStatus)
    (h1 : s.jobComplete = true) (h3 : s.failureReason = "") :
    ("failureReason", DVal.str "") ∈ statusDataOf s := by
  by_cases h2 : s.jobName = "" <;> by_cases h4 : s.failureMessage = "" <;>
    simp [statusDataOf, encodeToMap, h1, h2, h3, h4, lookupV]

/-- When the job is complete and no failure message is specified, the
desired status map carries an explicit empty `failureMessage`. -/
theorem failureMessage_mem_statusDataOf (s : RKEMachineStatus)
    (h1 : s.jobComplete = true) (h4 : s.failureMessage = "") :
    ("failureMessage", DVal.str "") ∈ statusDataOf s := by
  by_cases h2 : s.jobName = "" <;> by_cases h3 : s.failureReason = "" <;>
    simp [statusDataOf, encodeToMap, h1, h2, h3, h4, lookupV]

/-- The result of `patchStatus`: the (possibly updated) object and
whether a status write was persisted. -/
structure PatchResult where
  obj : MObj
  wrote : Bool
deriving DecidableEq, Repr

/-- Model of `patchStatus`: compare each desired field's string form against the
stored value; if none differ, return the object unchanged without a
write; otherwise merge the desired keys into a fresh copy's status and
persist it. -/
def patchStatus (obj : MObj) (state : RKEMachineStatus) : PatchResult :=
  let sd := statusDataOf state
  if sd.any (fun kv => dString obj.status kv.1 != kv.2.toString) then
    ⟨{ obj with status := applyData obj.status sd }, true⟩
  else ⟨obj, false⟩

/-- C5: for a desired status with `jobComplete = true` and absent
failure fields, `patchStatus` leaves both stored failure fields empty —
and performs a write whenever the stored `failureReason` was previously
non-empty, so stale failures never persist past a clean completion. -/
theorem c5_clear_failure_fields (obj : MObj) (state : RKEMachineStatus)
    (h1 : state.jobComplete = true) (h2 : state.failureReason = "")
    (h3 : state.failureMessage = "") :
    dString (patchStatus obj state).obj.status "failureReason" = "" ∧
    dString (patchStatus obj state).obj.status "failureMessage" = "" ∧
    (dString obj.status "failureReason" ≠ "" → (patchStatus obj state).wrote = true) := by
  have hmr : ("failureReason", DVal.str "") ∈ statusDataOf state :=
    failureReason_mem_statusDataOf state h1 h2
  have hmm : ("failureMessage", DVal.str "") ∈ statusDataOf state :=
    failureMessage_mem_statusDataOf state h1 h3
  have hnd := statusDataOf_keys_nodup state
  by_cases hch :
      (statusDataOf state).any (fun kv => dString obj.status kv.1 != kv.2.toString) = true
  · have hobj : patchStatus obj state =
        ⟨{ obj with status := applyData obj.status (statusDataOf state) }, true⟩ := by
      simp [patchStatus, hch]
    rw [hobj]
    refine ⟨?_, ?_, fun _ => rfl⟩
    · rw [dString]
      dsimp only
      rw [lookupV_applyData_mem _ _ _ _ hnd hmr]
      rfl
    · rw [dString]
      dsimp only
      rw [lookupV_applyData_mem _ _ _ _ hnd hmm]
      rfl
  · have hf : (statusDataOf state).any
        (fun kv => dString obj.status kv.1 != kv.2.toString) = false :=
      eq_false_of_ne_true hch
    have hobj : patchStatus obj state = ⟨obj, false⟩ := by
      simp [patchStatus, hf]
    have hallr := List.any_eq_false.mp hf _ hmr
    have hallm := List.any_eq_false.mp hf _ hmm
    simp only [Bool.not_eq_true, bne_eq_false_iff_eq, DVal.toString] at hallr hallm
    rw [hobj]
    exact ⟨hallr, hallm, fun hne => absurd hallr hne⟩

/-- Witness resource for C5: a stored stale failure. -/
def w5obj : MObj :=
  ⟨"m5", "ns5", "gvk5", [], [],
   [("failureReason", .str "CreateError"), ("failureMessage", .str "old boom")], []⟩

/-- Witness desired status for C5: a clean completion. -/
def w5state : RKEMachineStatus := { jobComplete := true, jobName := "job5" }

theorem c5_clear_failure_fields_witness :
    w5state.jobComplete = true ∧
    (dString (patchStatus w5obj w5state).obj.status "failureReason" = "" ∧
     dString (patchStatus w5obj w5state).obj.status "failureMessage" = "" ∧
     (dString w5obj.status "failureReason" ≠ "" → (patchStatus w5obj w5state).wrote = true)) :=
  ⟨rfl, c5_clear_failure_fields w5obj w5state rfl rfl rfl⟩

/-- C6: `patchStatus` is idempotent — a second call with the identical
desired status finds every desired field's string form equal to the
stored value, performs no write, and returns the object unchanged. -/
theorem c6_patch_idempotent (obj : MObj) (state : RKEMachineStatus) :
    patchStatus (patchStatus obj state).obj state = ⟨(patchStatus obj state).obj, false⟩ := by
  by_cases hch :
      (statusDataOf state).any (fun kv => dString obj.status kv.1 != kv.2.toString) = true
  · have hobj : patchStatus obj state =
        ⟨{ obj with status := applyData obj.status (statusDataOf state) }, true⟩ := by
      simp [patchStatus, hch]
    have hany2 : (statusDataOf state).any
        (fun kv => dString (applyData obj.status (statusDataOf state)) kv.1 != kv.2.toString) =
          false := by
      rw [List.any_eq_false]
      intro kv hkv
      have hl := lookupV_applyData_mem (statusDataOf state) obj.status kv.1 kv.2
        (statusDataOf_keys_nodup state) (by simpa using hkv)
      simp [bne_eq_false_iff_eq, dString, hl]
    rw [hobj]
    simp [patchStatus, hany2]
  · have hf : (statusDataOf state).any
        (fun kv => dString obj.status kv.1 != kv.2.toString) = false :=
      eq_false_of_ne_true hch
    have hobj : patchStatus obj state = ⟨obj, false⟩ := by
      simp [patchStatus, hf]
    rw [hobj]
    exact hobj

/-- Model of `errors2.Is(generic.ErrSkip, err)`: with the sentinel in argument
order as written in the source matches exactly the sentinel itself, and
the code then clears the error. -/
def skipToNil (e : Option GoErr) : Option GoErr :=
  match e with
  | some .skip => none
  | x => x

/-- Model of `err.Error()`. -/
def GoErr.errorMessage : GoErr → String
  | .skip => "skip"
  | .notFound => "not found"
  | .msg s => s

/-- The condition `setCondition` computes from the (skip-mapped) error:
`{False, Error, message}` for a real error, `{True, "", ""}` otherwise. -/
def computedCondition (conditionType : String) (err : Option GoErr) : Cond :=
  match err with
  | some e => ⟨conditionType, "False", "Error", e.errorMessage⟩
  | none => ⟨conditionType, "True", "", ""⟩

theorem computedCondition_type (t : String) (err : Option GoErr) :
    (computedCondition t err).type = t := by
  cases err with
  | none => rfl
  | some e => rfl

/-- The result of `setCondition`: the (possibly updated) object, the
returned error, and whether a status write was persisted. -/
structure CondResult where
  obj : MObj
  err : Option GoErr
  wrote : Bool
deriving DecidableEq, Repr

/-- The write branch of `setCondition`: replace every stored condition
of the type in place, or append a new one, then persist. -/
def setConditionWrite (obj : MObj) (conditionType : String) (desired : Cond)
    (err : Option GoErr) : CondResult :=
  let conds := obj.conditions
  let newConds :=
    if conds.any (fun c => c.type == conditionType) then
      conds.map (fun c => if c.type == conditionType then desired else c)
    else conds ++ [desired]
  ⟨{ obj with conditions := newConds }, err, true⟩

/-- Model of `setCondition`: map the skip sentinel to success, compute the
desired condition, skip the write when the first stored condition of the
type equals it on all four fields (returning the mapped error), and
otherwise write. -/
def setCondition (obj : MObj) (conditionType : String) (err0 : Option GoErr) : CondResult :=
  let err := skipToNil err0
  let desired := computedCondition conditionType err
  match condFind obj.conditions conditionType with
  | some c =>
    if c = desired then ⟨obj, err, false⟩
    else setConditionWrite obj conditionType desired err
  | none => setConditionWrite obj conditionType desired err

theorem condFind_isSome_any (l : List Cond) (t : String) :
    l.any (fun c => c.type == t) = (condFind l t).isSome := by
  induction l with
  | nil => simp [condFind]
  | cons c rest ih => by_cases hc : c.type = t <;> simp [condFind, hc, ih]

theorem condFind_replace (l : List Cond) (t : String) (d : Cond) (hd : d.type = t)
    (h : l.any (fun c => c.type == t) = true) :
    condFind (l.map (fun c => if c.type == t then d else c)) t = some d := by
  induction l with
  | nil => simp at h
  | cons c rest ih =>
    by_cases hc : c.type = t
    · simp [condFind, hc, hd]
    · have h' : rest.any (fun c => c.type == t) = true := by
        simpa [List.any_cons, hc] using h
      simpa [condFind, hc] using ih h'

theorem condFind_append_self (l : List Cond) (t : String) (d : Cond) (hd : d.type = t)
    (h : condFind l t = none) : condFind (l ++ [d]) t = some d := by
  induction l with
  | nil => simp [condFind, hd]
  | cons c rest ih =>
    by_cases hc : c.type = t
    · rw [condFind, if_pos (by simpa using hc)] at h
      cases h
    · rw [condFind, if_neg (by simpa using hc)] at h
      simpa [condFind, hc] using ih h

/-- After any `setCondition` call, the first stored condition of the
type is the computed one. -/
theorem condFind_setCondition (obj : MObj) (t : String) (err0 : Option GoErr) :
    condFind (setCondition obj t err0).obj.conditions t =
      some (computedCondition t (skipToNil err0)) := by
  simp only [setCondition]
  cases hf : condFind obj.conditions t with
  | some c =>
    by_cases hc : c = computedCondition t (skipToNil err0)
    · simp only [if_pos hc]
      rw [hf, hc]
    · simp only [if_neg hc, setConditionWrite]
      have hany : obj.conditions.any (fun x => x.type == t) = true := by
        rw [condFind_isSome_any, hf]
        rfl
      simp only [hany, if_true]
      exact condFind_replace obj.conditions t (computedCondition t (skipToNil err0))
        (computedCondition_type t _) hany
  | none =>
    simp only [setConditionWrite]
    have hany : obj.conditions.any (fun x => x.type == t) = false := by
      rw [condFind_isSome_any, hf]
      rfl
    simp only [hany, Bool.false_eq_true, if_false]
    exact condFind_append_self obj.conditions t _ (computedCondition_type t _) hf

/-- When the first stored condition of the type already equals the
computed one, `setCondition` performs no write and returns the
skip-mapped error. -/
theorem setCondition_noop (obj : MObj) (t : String) (err0 : Option GoErr)
    (h : condFind obj.conditions t = some (computedCondition t (skipToNil err0))) :
    setCondition obj t err0 = ⟨obj, skipToNil err0, false⟩ := by
  simp only [setCondition]
  rw [h]
  simp

/-- Resource used to refute C7: it already holds the condition computed
from the error `"boom"`. -/
def c7obj : MObj :=
  ⟨"m7", "ns7", "gvk7", [], [], [], [⟨"CreateJob", "False", "Error", "boom"⟩]⟩

/-- C7 counterexample: calling `setCondition` twice with the same fatal
error on a resource that already holds the identical condition performs
**zero** persisted writes (the claim demands exactly one), and the
second call returns the error rather than returning without error. -/
theorem c7_counterexample :
    (setCondition c7obj "CreateJob" (some (.msg "boom"))).wrote = false ∧
    (setCondition (setCondition c7obj "CreateJob" (some (.msg "boom"))).obj
        "CreateJob" (some (.msg "boom"))).wrote = false ∧
    (setCondition (setCondition c7obj "CreateJob" (some (.msg "boom"))).obj
        "CreateJob" (some (.msg "boom"))).err = some (.msg "boom") := by
  decide

/-- C7 (amended): for every resource, condition type and error state,
calling `setCondition` twice with the same error state performs at most
one persisted write: the second call finds the stored condition equal to
the computed one on all four fields, performs no status update, returns
the object unchanged, and returns the input error with the skip sentinel
mapped to success. -/
theorem c7_amended (obj : MObj) (t : String) (err : Option GoErr) :
    (setCondition (setCondition obj t err).obj t err).wrote = false ∧
    (setCondition (setCondition obj t err).obj t err).obj = (setCondition obj t err).obj ∧
    (setCondition (setCondition obj t err).obj t err).err = skipToNil err := by
  have h2 := setCondition_noop (setCondition obj t err).obj t err
    (condFind_setCondition obj t err)
  rw [h2]
  exact ⟨rfl, rfl, rfl⟩

/-- Model of `strings.HasSuffix` (character-list implementation, so that it
evaluates by kernel reduction). -/
def goHasSuffix (s suffix : String) : Bool :=
  decide (suffix.data.length ≤ s.data.length) &&
    (s.data.drop (s.data.length - suffix.data.length) == suffix.data)

/-- The newline fixup of `constructFilesSecret`: append a newline only
when the content does not already end with one. -/
def ensureNewline (s : String) : String :=
  if goHasSuffix s "\n" then s else s ++ "\n"

/-- Modelled from the spec: the directory the driver reads machine files
from (constant `pathToMachineFiles`, declared in a repository file
outside the unit under study; its exact value is immaterial here). -/
def pathToMachineFiles : String := "/run/secrets/machine"

/-- Model of `path.Join` for a non-empty base and a plain file name. -/
def pathJoin (a b : String) : String := a ++ "/" ++ b

/-- The secret key for a field: a designated SSH-key schema field is
always stored under the fixed canonical name `id_rsa`, any other field
under its driver-specific file name. -/
def fileNameFor (sshKeyFields : String → Bool) (schemaField driverField : String) : String :=
  if sshKeyFields schemaField then "id_rsa" else driverField

/-- The loop of `constructFilesSecret` over the driver's declared
`(schemaField, driverField)` pairs: a field holding string content is
removed from the spec; non-empty content is stored (newline-ensured)
into the secret under its file name and the spec's driver field is set
to the file's path; non-string or absent fields are left alone. -/
def processFields (ssh : String → Bool) :
    List (String × String) → List (String × DVal) → List (String × String) →
    List (String × String) × List (String × DVal)
  | [], _config, secretData => (secretData, _config)
  | (schemaField, driverField) :: rest, config, secretData =>
    match lookupV config schemaField with
    | some (DVal.str fileContents) =>
      let config1 := removeKeyV config schemaField
      if fileContents = "" then processFields ssh rest config1 secretData
      else
        let fileName := fileNameFor ssh schemaField driverField
        processFields ssh rest
          (setKeyV config1 driverField (DVal.str (pathJoin pathToMachineFiles fileName)))
          (setKeyV secretData fileName (ensureNewline fileContents))
    | _ => processFields ssh rest config secretData

/-- The result of `constructFilesSecret`: the generated secret (nil when
the driver declares no file fields) and the mutated spec map. -/
structure FilesResult where
  secret : Option (List (String × String))
  config : List (String × DVal)
deriving DecidableEq, Repr

/-- Model of `constructFilesSecret`, parameterized by the driver declaration
tables (`node.SchemaToDriverFields` and `nodedriver.SSHKeyFields`, both
defined outside the unit under study). -/
def constructFilesSecret (schemaToDriverFields : String → Option (List (String × String)))
    (sshKeyFields : String → Bool) (driver : String) (config : List (String × DVal)) :
    FilesResult :=
  match schemaToDriverFields driver with
  | some fields =>
    let r := processFields sshKeyFields fields config []
    ⟨some r.1, r.2⟩
  | none => ⟨none, config⟩

theorem ensureNewline_hasSuffix (s : String) : goHasSuffix (ensureNewline s) "\n" = true := by
  rw [ensureNewline]
  by_cases h : goHasSuffix s "\n" = true
  · rw [if_pos h]
    exact h
  · rw [if_neg h]
    have hdata : (s ++ "\n").data = s.data ++ ['\n'] := by
      rw [String.data_append]
    simp [goHasSuffix, hdata]

/-- The string form of "ends with exactly one trailing newline". -/
def endsWithExactlyOneNewline (s : String) : Bool :=
  goHasSuffix s "\n" && !(goHasSuffix s "\n\n")

/-- Unfolding of the loop on a head field holding string content. -/
theorem processFields_cons_str (ssh : String → Bool) (sf df : String)
    (rest : List (String × String)) (config : List (String × DVal))
    (sd : List (String × String)) (c : String)
    (hl : lookupV config sf = some (DVal.str c)) :
    processFields ssh ((sf, df) :: rest) config sd =
      if c = "" then processFields ssh rest (removeKeyV config sf) sd
      else
        processFields ssh rest
          (setKeyV (removeKeyV config sf) df
            (DVal.str (pathJoin pathToMachineFiles (fileNameFor ssh sf df))))
          (setKeyV sd (fileNameFor ssh sf df) (ensureNewline c)) := by
  rw [processFields, hl]

/-- Unfolding of the loop on a head field absent from the spec map. -/
theorem processFields_cons_none (ssh : String → Bool) (sf df : String)
    (rest : List (String × String)) (config : List (String × DVal))
    (sd : List (String × String))
    (hl : lookupV config sf = none) :
    processFields ssh ((sf, df) :: rest) config sd = processFields ssh rest config sd := by
  rw [processFields, hl]

/-- Unfolding of the loop on a head field holding non-string content. -/
theorem processFields_cons_bool (ssh : String → Bool) (sf df : String)
    (rest : List (String × String)) (config : List (String × DVal))
    (sd : List (String × String)) (b : Bool)
    (hl : lookupV config sf = some (DVal.bool b)) :
    processFields ssh ((sf, df) :: rest) config sd = processFields ssh rest config sd := by
  rw [processFields, hl]

/-- Keys the loop never declares (neither as a schema field nor as a
driver field) keep their spec-map binding. -/
theorem processFields_config_notmem (ssh : String → Bool) :
    ∀ (fields : List (String × String)) (config : List (String × DVal))
      (sd : List (String × String)) (k : String),
    (∀ p ∈ fields, p.1 ≠ k) → (∀ p ∈ fields, p.2 ≠ k) →
    lookupV (processFields ssh fields config sd).2 k = lookupV config k := by
  intro fields
  induction fields with
  | nil => intro config sd k _ _; rfl
  | cons p rest ih =>
    intro config sd k h1 h2
    obtain ⟨sf, df⟩ := p
    have hsf : sf ≠ k := h1 (sf, df) (List.mem_cons_self _ _)
    have hdf : df ≠ k := h2 (sf, df) (List.mem_cons_self _ _)
    have h1r : ∀ q ∈ rest, q.1 ≠ k := fun q hq => h1 q (List.mem_cons_of_mem _ hq)
    have h2r : ∀ q ∈ rest, q.2 ≠ k := fun q hq => h2 q (List.mem_cons_of_mem _ hq)
    cases hl : lookupV config sf with
    | none =>
      rw [processFields_cons_none ssh sf df rest config sd hl]
      exact ih config sd k h1r h2r
    | some v =>
      cases v with
      | bool b =>
        rw [processFields_cons_bool ssh sf df rest config sd b hl]
        exact ih config sd k h1r h2r
      | str c =>
        rw [processFields_cons_str ssh sf df rest config sd c hl]
        by_cases hc : c = ""
        · rw [if_pos hc, ih _ sd k h1r h2r]
          exact lookupV_removeKeyV_ne config sf k (Ne.symm hsf)
        · rw [if_neg hc, ih _ _ k h1r h2r,
            lookupV_setKeyV_ne _ df k _ (Ne.symm hdf)]
          exact lookupV_removeKeyV_ne config sf k (Ne.symm hsf)

/-- Secret entries under names no field of the loop produces keep their
binding. -/
theorem processFields_secret_notmem (ssh : String → Bool) :
    ∀ (fields : List (String × String)) (config : List (String × DVal))
      (sd : List (String × String)) (name : String),
    (∀ p ∈ fields, fileNameFor ssh p.1 p.2 ≠ name) →
    lookupV (processFields ssh fields config sd).1 name = lookupV sd name := by
  intro fields
  induction fields with
  | nil => intro config sd name _; rfl
  | cons p rest ih =>
    intro config sd name h
    obtain ⟨sf, df⟩ := p
    have hfn : fileNameFor ssh sf df ≠ name := h (sf, df) (List.mem_cons_self _ _)
    have hr : ∀ q ∈ rest, fileNameFor ssh q.1 q.2 ≠ name :=
      fun q hq => h q (List.mem_cons_of_mem _ hq)
    cases hl : lookupV config sf with
    | none =>
      rw [processFields_cons_none ssh sf df rest config sd hl]
      exact ih config sd name hr
    | some v =>
      cases v with
      | bool b =>
        rw [processFields_cons_bool ssh sf df rest config sd b hl]
        exact ih config sd name hr
      | str c =>
        rw [processFields_cons_str ssh sf df rest config sd c hl]
        by_cases hc : c = ""
        · rw [if_pos hc]
          exact ih _ sd name hr
        · rw [if_neg hc, ih _ _ name hr]
          exact lookupV_setKeyV_ne sd _ name _ (Ne.symm hfn)

/-- The per-field contract of the materializer loop, under a
well-formed declaration (pairwise-distinct schema fields, driver fields
and computed file names, with schema and driver fields disjoint): each
declared field holding string content is removed from the spec;
non-empty content lands in the secret (newline-ensured) under the
field's file name and the driver field is set to that file's path;
empty content produces no secret entry. -/
theorem processFields_spec (ssh : String → Bool) :
    ∀ (fields : List (String × String)) (config : List (String × DVal))
      (sd : List (String × String)),
    (fields.map Prod.fst).Nodup →
    (fields.map Prod.snd).Nodup →
    (∀ p ∈ fields, ∀ q ∈ fields, p.1 ≠ q.2) →
    (fields.map (fun p => fileNameFor ssh p.1 p.2)).Nodup →
    (∀ p ∈ fields, lookupV sd (fileNameFor ssh p.1 p.2) = none) →
    ∀ sf df c, (sf, df) ∈ fields → lookupV config sf = some (DVal.str c) →
      lookupV (processFields ssh fields config sd).2 sf = none ∧
      (c ≠ "" →
        lookupV (processFields ssh fields config sd).1 (fileNameFor ssh sf df) =
          some (ensureNewline c) ∧
        lookupV (processFields ssh fields config sd).2 df =
          some (DVal.str (pathJoin pathToMachineFiles (fileNameFor ssh sf df)))) ∧
      (c = "" →
        lookupV (processFields ssh fields config sd).1 (fileNameFor ssh sf df) = none) := by
  intro fields
  induction fields with
  | nil =>
    intro config sd _ _ _ _ _ sf df c hm _
    cases hm
  | cons p rest ih =>
    intro config sd hA hB hAB hN hsd sf df c hm hc
    obtain ⟨a, b⟩ := p
    rw [List.map_cons, List.nodup_cons] at hA hB hN
    have hABr : ∀ q ∈ rest, ∀ r ∈ rest, q.1 ≠ r.2 := fun q hq r hr =>
      hAB q (List.mem_cons_of_mem _ hq) r (List.mem_cons_of_mem _ hr)
    have hhead : (a, b) ∈ (a, b) :: rest := List.mem_cons_self _ _
    rcases List.mem_cons.mp hm with heq | hmem
    · -- the field under scrutiny is the head
      have hsf : sf = a := congrArg Prod.fst heq
      have hdf : df = b := congrArg Prod.snd heq
      subst hsf
      subst hdf
      have hr1 : ∀ q ∈ rest, q.1 ≠ sf := by
        intro q hq hqs
        have hin : q.1 ∈ List.map Prod.fst rest := List.mem_map_of_mem Prod.fst hq
        rw [hqs] at hin
        exact hA.1 hin
      have hr2 : ∀ q ∈ rest, q.2 ≠ sf := fun q hq =>
        Ne.symm (hAB (sf, df) hhead q (List.mem_cons_of_mem _ hq))
      have hr1b : ∀ q ∈ rest, q.1 ≠ df := fun q hq =>
        hAB q (List.mem_cons_of_mem _ hq) (sf, df) hhead
      have hr2b : ∀ q ∈ rest, q.2 ≠ df := by
        intro q hq hqd
        have hin : q.2 ∈ List.map Prod.snd rest := List.mem_map_of_mem Prod.snd hq
        rw [hqd] at hin
        exact hB.1 hin
      have hrn : ∀ q ∈ rest, fileNameFor ssh q.1 q.2 ≠ fileNameFor ssh sf df := by
        intro q hq hqn
        have hin : fileNameFor ssh q.1 q.2 ∈ List.map (fun p => fileNameFor ssh p.1 p.2) rest :=
          List.mem_map_of_mem (fun p => fileNameFor ssh p.1 p.2) hq
        rw [hqn] at hin
        exact hN.1 hin
      have hab : sf ≠ df := hAB (sf, df) hhead (sf, df) hhead
      rw [processFields_cons_str ssh sf df rest config sd c hc]
      by_cases hce : c = ""
      · rw [if_pos hce]
        refine ⟨?_, fun hne => absurd hce hne, fun _ => ?_⟩
        · rw [processFields_config_notmem ssh rest _ sd sf hr1 hr2]
          exact lookupV_removeKeyV_self config sf
        · rw [processFields_secret_notmem ssh rest _ sd _ hrn]
          exact hsd (sf, df) hhead
      · rw [if_neg hce]
        refine ⟨?_, fun _ => ⟨?_, ?_⟩, fun habs => absurd habs hce⟩
        · rw [processFields_config_notmem ssh rest _ _ sf hr1 hr2,
            lookupV_setKeyV_ne _ df sf _ hab]
          exact lookupV_removeKeyV_self config sf
        · rw [processFields_secret_notmem ssh rest _ _ _ hrn]
          exact lookupV_setKeyV_self sd _ _
        · rw [processFields_config_notmem ssh rest _ _ df hr1b hr2b]
          exact lookupV_setKeyV_self _ df _
    · -- the field under scrutiny sits in the tail
      have hsfa : sf ≠ a := by
        intro hq
        have hin : sf ∈ List.map Prod.fst rest := List.mem_map_of_mem Prod.fst hmem
        rw [hq] at hin
        exact hA.1 hin
      have hsfb : sf ≠ b := hAB (sf, df) (List.mem_cons_of_mem _ hmem) (a, b) hhead
      have hsdr : ∀ q ∈ rest, lookupV sd (fileNameFor ssh q.1 q.2) = none :=
        fun q hq => hsd q (List.mem_cons_of_mem _ hq)
      cases hl : lookupV config a with
      | none =>
        rw [processFields_cons_none ssh a b rest config sd hl]
        exact ih config sd hA.2 hB.2 hABr hN.2 hsdr sf df c hmem hc
      | some v =>
        cases v with
        | bool bb =>
          rw [processFields_cons_bool ssh a b rest config sd bb hl]
          exact ih config sd hA.2 hB.2 hABr hN.2 hsdr sf df c hmem hc
        | str c0 =>
          rw [processFields_cons_str ssh a b rest config sd c0 hl]
          by_cases hc0 : c0 = ""
          · rw [if_pos hc0]
            refine ih _ sd hA.2 hB.2 hABr hN.2 hsdr sf df c hmem ?_
            rw [lookupV_removeKeyV_ne config a sf hsfa]
            exact hc
          · rw [if_neg hc0]
            refine ih _ _ hA.2 hB.2 hABr hN.2 ?_ sf df c hmem ?_
            · intro q hq
              have hqn : fileNameFor ssh q.1 q.2 ≠ fileNameFor ssh a b := by
                intro hqe
                have hin : fileNameFor ssh q.1 q.2 ∈
                    List.map (fun p => fileNameFor ssh p.1 p.2) rest :=
                  List.mem_map_of_mem (fun p => fileNameFor ssh p.1 p.2) hq
                rw [hqe] at hin
                exact hN.1 hin
              rw [lookupV_setKeyV_ne sd _ _ _ hqn]
              exact hsdr q hq
            · rw [lookupV_setKeyV_ne _ b sf _ hsfb,
                lookupV_removeKeyV_ne config a sf hsfa]
              exact hc

/-- Declaration table used to refute C9: one driver with one file field. -/
def c9fields : String → Option (List (String × String)) :=
  fun d => if d == "testdriver" then some [("keyContents", "keyPath")] else none

def c9ssh : String → Bool := fun _ => false

/-- C9 counterexample: content already ending in two newlines is stored
unchanged, so the secret entry does **not** end with exactly one
trailing newline (the code only appends a newline when one is missing;
it never collapses extras). -/
theorem c9_counterexample :
    (constructFilesSecret c9fields c9ssh "testdriver"
        [("keyContents", DVal.str "abc\n\n")]).secret =
      some [("keyPath", "abc\n\n")] ∧
    endsWithExactlyOneNewline "abc\n\n" = false := by
  decide

/-- C9 (amended): for a driver declaring file-valued fields (with
pairwise-distinct schema fields, driver fields and file names, schema
and driver fields disjoint), every declared field holding string
content is removed from the spec; non-empty content is stored in the
returned secret with **at least** one trailing newline (one is appended
only when missing), keyed by the driver-specific file name except that
an SSH-key field is stored under the canonical name `id_rsa`, and the
spec's driver field is set to the path of that file; a field holding
the empty string is removed but produces no secret entry. -/
theorem c9_amended (stdf : String → Option (List (String × String)))
    (ssh : String → Bool) (driver : String) (fields : List (String × String))
    (config : List (String × DVal)) (sf df c : String)
    (hf : stdf driver = some fields)
    (hA : (fields.map Prod.fst).Nodup)
    (hB : (fields.map Prod.snd).Nodup)
    (hAB : ∀ p ∈ fields, ∀ q ∈ fields, p.1 ≠ q.2)
    (hN : (fields.map (fun p => fileNameFor ssh p.1 p.2)).Nodup)
    (hmem : (sf, df) ∈ fields)
    (hc : lookupV config sf = some (DVal.str c)) :
    ∃ sd, (constructFilesSecret stdf ssh driver config).secret = some sd ∧
      lookupV (constructFilesSecret stdf ssh driver config).config sf = none ∧
      (c ≠ "" →
        lookupV sd (fileNameFor ssh sf df) = some (ensureNewline c) ∧
        goHasSuffix (ensureNewline c) "\n" = true ∧
        lookupV (constructFilesSecret stdf ssh driver config).config df =
          some (DVal.str (pathJoin pathToMachineFiles (fileNameFor ssh sf df)))) ∧
      (c = "" → lookupV sd (fileNameFor ssh sf df) = none) := by
  have hspec := processFields_spec ssh fields config [] hA hB hAB hN
    (fun _ _ => rfl) sf df c hmem hc
  have hcf : constructFilesSecret stdf ssh driver config =
      ⟨some (processFields ssh fields config []).1, (processFields ssh fields config []).2⟩ := by
    rw [constructFilesSecret, hf]
  rw [hcf]
  refine ⟨(processFields ssh fields config []).1, rfl, hspec.1,
    fun hne => ⟨(hspec.2.1 hne).1, ensureNewline_hasSuffix c, (hspec.2.1 hne).2⟩,
    fun he => hspec.2.2 he⟩

/-- Witness declaration for C9 (amended): a driver with an SSH-key field
and a certificate field. -/
def w9fields : List (String × String) := [("sshContents", "sshPath"), ("certContents", "certPath")]

def w9stdf : String → Option (List (String × String)) :=
  fun d => if d == "drv" then some w9fields else none

def w9ssh : String → Bool := fun s => s == "sshContents"

def w9config : List (String × DVal) :=
  [("sshContents", DVal.str "KEY"), ("certContents", DVal.str "CERT\n"), ("other", DVal.bool true)]

theorem c9_amended_witness :
    lookupV w9config "sshContents" = some (DVal.str "KEY") ∧
    (∃ sd, (constructFilesSecret w9stdf w9ssh "drv" w9config).secret = some sd ∧
      lookupV (constructFilesSecret w9stdf w9ssh "drv" w9config).config "sshContents" = none ∧
      ("KEY" ≠ "" →
        lookupV sd (fileNameFor w9ssh "sshContents" "sshPath") = some (ensureNewline "KEY") ∧
        goHasSuffix (ensureNewline "KEY") "\n" = true ∧
        lookupV (constructFilesSecret w9stdf w9ssh "drv" w9config).config "sshPath" =
          some (DVal.str (pathJoin pathToMachineFiles
            (fileNameFor w9ssh "sshContents" "sshPath")))) ∧
      ("KEY" = "" → lookupV sd (fileNameFor w9ssh "sshContents" "sshPath") = none)) :=
  ⟨rfl,
   c9_amended w9stdf w9ssh "drv" w9fields w9config "sshContents" "sshPath" "KEY"
     (by decide) (by decide) (by decide) (by decide) (by decide) (by decide) rfl⟩
